import Mathlib

set_option linter.unusedVariables false

/-!
Verification development for the readgo code-analysis library.

The definitions below are shallow embeddings of the Go sources:
`validator.go` (cycle detection, project validation), `cache.go`
(TTL cache and the path-guarded reader), `analyzer.go` (package
analysis), and the parallel `readgo` variant of the validator.
Machine integers do not overflow in the modelled code paths, so
times and sizes are `Nat`.  Fallible Go functions returning
`(T, error)` become `Except String T`; recursion whose termination
Go obtains from monotonically growing visited sets is modelled
with an explicit fuel parameter, `none` marking fuel exhaustion
(which never occurs for sufficient fuel).
-/

/-- `strings.HasPrefix(s, pre)`: computable character-level prefix
test (equivalent to Go's byte-level test on valid UTF-8). -/
def strStartsWith (s pre : String) : Bool :=
  List.isPrefixOf pre.data s.data

/-- Shallow embedding of `ValidationError` (readgo2 `types.go`). -/
structure ValidationError where
  level : String
  code : String
  message : String
  file : String
  line : Nat
  column : Nat
  details : List String
  deriving Repr, DecidableEq

/-- A loaded package as produced by `packages.Load`: its import paths
(`Imports` map keys), the raw import paths written in each syntax file
(quotes already trimmed, as after `strings.Trim`), and loader errors. -/
structure PackageData where
  imports : List String
  fileImports : List (List String)
  errors : List String
  deriving Repr, DecidableEq

/-- State threaded through `buildGraph` in `CheckCircularDependencies`:
the `visited` set and the adjacency map `graph` (an association list,
each package written at most once). -/
structure BuildState where
  visited : List String
  graph : List (String × List String)
  deriving Repr, DecidableEq

/-- The merge step of `buildGraph`'s second loop: a syntax-derived
dependency is appended only when not already present. -/
def dedupAdd (deps : List String) (p : String) : List String :=
  if p ∈ deps then deps else deps ++ [p]

/-- Embedding of the recursive `buildGraph` closure of
`CheckCircularDependencies` (validator.go): depth-first expansion over
the loaded package graph, recording for each package its intra-module
dependencies, derived from the `Imports` map and merged (without
duplication) with the per-file syntax imports.  `env` resolves an
imported path to its loaded package; fuel exhaustion leaves the state
unchanged.  -/
def buildGraph (env : String → Option PackageData) (modPath : String) :
    Nat → String → BuildState → BuildState
  | 0, _, s => s
  | fuel + 1, pid, s =>
    match env pid with
    | none => s
    | some p =>
      if pid ∈ s.visited then s
      else
        let s1 : BuildState := { s with visited := pid :: s.visited }
        let deps0 := p.imports.filter (fun i => strStartsWith i modPath)
        let s2 := deps0.foldl (fun st d => buildGraph env modPath fuel d st) s1
        let deps := (p.fileImports.flatten.filter (fun i => strStartsWith i modPath)).foldl
          dedupAdd deps0
        { s2 with graph := (pid, deps) :: s2.graph }

/-- State threaded through the `detectCycle` closure: the permanent
`visited` set, the recursion `stack`, and the `CircularDeps` strings
accumulated into the shared result. -/
structure DetectState where
  visited : List String
  stack : List String
  circularDeps : List String
  deriving Repr, DecidableEq

/-- The edge strings `fmt.Sprintf("%s -> %s", cycle[i], cycle[i+1])`
produced by the reporting loop of `detectCycle`. -/
def edgeStrings : List String → List String
  | a :: b :: rest => (a ++ " -> " ++ b) :: edgeStrings (b :: rest)
  | _ => []

/-- One iteration of `detectCycle`'s loop over `graph[pkg]`: once a
dependency has reported a cycle (`true`), the loop result is fixed
(Go returns immediately); otherwise the next dependency is explored
with the state produced so far. -/
def depStep (next : String → DetectState → Option (Bool × DetectState))
    (acc : Option (Bool × DetectState)) (d : String) :
    Option (Bool × DetectState) :=
  match acc with
  | none => none
  | some (true, s2) => some (true, s2)
  | some (false, s2) => next d s2

/-- Embedding of the `detectCycle` closure of
`CheckCircularDependencies`: DFS with a recursion stack; reaching a
package already on the stack appends the edges of `append(path, pkg)`
to `CircularDeps` and returns true.  The loop over `graph[pkg]` stops
at the first dependency that reports a cycle. -/
def detectCycle (g : String → List String) :
    Nat → String → List String → DetectState → Option (Bool × DetectState)
  | 0, _, _, _ => none
  | fuel + 1, pkg, path, s =>
    if pkg ∈ s.stack then
      some (true, { s with circularDeps := s.circularDeps ++ edgeStrings (path ++ [pkg]) })
    else if pkg ∈ s.visited then
      some (false, s)
    else
      let s1 : DetectState := { s with visited := pkg :: s.visited, stack := pkg :: s.stack }
      match (g pkg).foldl (depStep (fun d s2 => detectCycle g fuel d (path ++ [pkg]) s2))
          (some (false, s1)) with
      | none => none
      | some (true, s2) => some (true, s2)
      | some (false, s2) => some (false, { s2 with stack := s2.stack.erase pkg })

/-- Outcome of the initial `packages.Load` call in
`CheckCircularDependencies`: either the call itself failed, or it
returned a list of loaded packages (keyed by import path) living in a
module with the given module path (`pkg.Module.Path`). -/
inductive LoadOutcome where
  | loadErr (msg : String)
  | loaded (pkgs : List (String × PackageData)) (modulePath : String)
  deriving Repr, DecidableEq

/-- The fields of `ValidationResult` that `CheckCircularDependencies`
writes (the import/external-dependency collection of its tail touches
none of these fields and is omitted from the model). -/
structure CircResult where
  valid : Bool
  errors : List ValidationError
  hasCircularDeps : Bool
  circularDeps : List String
  deriving Repr, DecidableEq

/-- The `PKG_ERROR` entry appended for each loader error of the root
package. -/
def mkPkgError (pkgPath msg : String) : ValidationError :=
  ⟨"error", "PKG_ERROR", msg, pkgPath, 0, 0, []⟩

/-- The adjacency function read back from the graph built by
`buildGraph` starting at `rootId` (`graph[pkg]`, a missing key giving
the empty list as for a Go map). -/
def builtGraph (pkgs : List (String × PackageData)) (modPath rootId : String)
    (fuel : Nat) : String → List String :=
  fun pid =>
    (((buildGraph (fun q => pkgs.lookup q) modPath fuel rootId ⟨[], []⟩).graph).lookup pid).getD []

/-- Embedding of `CheckCircularDependencies` (validator.go): a load
failure or an empty package list yields a returned (Go) error; a root
package with loader errors short-circuits into a `Valid=false` payload;
otherwise the dependency graph is built and the DFS cycle detection is
run from the root package. -/
def CheckCircularDependencies (outcome : LoadOutcome) (pkgPath : String)
    (fuel : Nat) : Option (Except String CircResult) :=
  match outcome with
  | .loadErr msg => some (.error ("load package: " ++ msg))
  | .loaded [] _ => some (.error ("no package found at " ++ pkgPath))
  | .loaded ((rootId, root) :: rest) modPath =>
    if root.errors.isEmpty then
      let g := builtGraph ((rootId, root) :: rest) modPath rootId fuel
      match detectCycle g fuel rootId [] ⟨[], [], []⟩ with
      | none => none
      | some (found, ds) =>
        if found then
          some (.ok
            { valid := false
              errors := [⟨"error", "CIRCULAR_DEP", "Circular dependency detected",
                pkgPath, 0, 0, ds.circularDeps⟩]
              hasCircularDeps := true
              circularDeps := ds.circularDeps })
        else
          some (.ok
            { valid := true
              errors := []
              hasCircularDeps := false
              circularDeps := ds.circularDeps })
    else
      some (.ok
        { valid := false
          errors := root.errors.map (mkPkgError pkgPath)
          hasCircularDeps := false
          circularDeps := [] })

/-- Three single-file packages importing each other in a ring:
pkg1 imports pkg2, pkg2 imports pkg3, pkg3 imports pkg1, all inside a
module whose path (`"pkg"`) is a prefix of each package path. -/
def ringPkg (dep : String) : PackageData :=
  { imports := [dep], fileImports := [[dep]], errors := [] }

/-- The package universe of the ring scenario. -/
def ringUniverse : List (String × PackageData) :=
  [("pkg1", ringPkg "pkg2"), ("pkg2", ringPkg "pkg3"), ("pkg3", ringPkg "pkg1")]

/-- The ring universe as loaded starting from the given package
(`pkgs[0]` is the package named by the load pattern). -/
def ringLoadFrom (start : String) : LoadOutcome :=
  .loaded ((ringUniverse.filter (fun e => e.1 = start)) ++
    (ringUniverse.filter (fun e => e.1 ≠ start))) "pkg"


/-- C1: for a project of three single-file packages importing each other
in a ring, `CheckCircularDependencies` started at any of the three
packages sets `HasCircularDeps=true`, and when started at pkg1 its
`CircularDeps` list is exactly
`["pkg1 -> pkg2", "pkg2 -> pkg3", "pkg3 -> pkg1"]`. -/
theorem checkCircular_ring_detects_cycle :
    (CheckCircularDependencies (ringLoadFrom "pkg1") "./pkg1" 8 =
      some (.ok { valid := false
                  errors := [⟨"error", "CIRCULAR_DEP", "Circular dependency detected",
                    "./pkg1", 0, 0, ["pkg1 -> pkg2", "pkg2 -> pkg3", "pkg3 -> pkg1"]⟩]
                  hasCircularDeps := true
                  circularDeps := ["pkg1 -> pkg2", "pkg2 -> pkg3", "pkg3 -> pkg1"] })) ∧
    ((CheckCircularDependencies (ringLoadFrom "pkg2") "./pkg2" 8).map
      (Except.map CircResult.hasCircularDeps) = some (.ok true)) ∧
    ((CheckCircularDependencies (ringLoadFrom "pkg3") "./pkg3" 8).map
      (Except.map CircResult.hasCircularDeps) = some (.ok true)) :=
  ⟨rfl, rfl, rfl⟩

/-- C4: a root package with loader-reported errors makes
`CheckCircularDependencies` return (with a nil Go error) a result that
is invalid, carries exactly the loader errors as `PKG_ERROR` entries,
and has no circular-dependency information: the graph construction and
cycle detection are never reached. -/
theorem checkCircular_loader_errors_short_circuit
    (rootId pkgPath modPath : String) (root : PackageData)
    (rest : List (String × PackageData)) (fuel : Nat)
    (herr : root.errors ≠ []) :
    CheckCircularDependencies (.loaded ((rootId, root) :: rest) modPath) pkgPath fuel =
      some (.ok { valid := false
                  errors := root.errors.map (mkPkgError pkgPath)
                  hasCircularDeps := false
                  circularDeps := [] }) := by
  have h : root.errors.isEmpty = false := by
    cases h' : root.errors with
    | nil => exact absurd h' herr
    | cons a l => simp [List.isEmpty]
  simp [CheckCircularDependencies, h]

theorem checkCircular_loader_errors_short_circuit_witness :
    CheckCircularDependencies
        (.loaded [("broken", ⟨[], [], ["expected declaration, found example"]⟩)] "m")
        "./broken" 8 =
      some (.ok { valid := false
                  errors := [mkPkgError "./broken" "expected declaration, found example"]
                  hasCircularDeps := false
                  circularDeps := [] }) :=
  checkCircular_loader_errors_short_circuit "broken" "./broken" "m"
    ⟨[], [], ["expected declaration, found example"]⟩ [] 8 (by simp)

theorem dedupAdd_nodup {deps : List String} (h : deps.Nodup) (p : String) :
    (dedupAdd deps p).Nodup := by
  unfold dedupAdd
  split
  · exact h
  · next hnot => simpa [List.nodup_append] using ⟨h, hnot⟩

theorem foldl_dedupAdd_nodup (l : List String) :
    ∀ init : List String, init.Nodup → (l.foldl dedupAdd init).Nodup := by
  induction l with
  | nil => intro init h; simpa using h
  | cons a l ih => intro init h; exact ih _ (dedupAdd_nodup h a)

theorem lookup_some_mem {α β : Type} [BEq α] [LawfulBEq α]
    {k : α} {v : β} : ∀ {l : List (α × β)}, l.lookup k = some v → (k, v) ∈ l := by
  intro l
  induction l with
  | nil => intro h; simp [List.lookup] at h
  | cons e l ih =>
    intro h
    rw [List.lookup] at h
    split at h
    · next heq =>
      cases h
      have hk : k = e.1 := by simpa using heq
      subst hk
      simp
    · next heq => exact List.mem_cons_of_mem _ (ih h)

theorem buildGraph_graph_entries_nodup (env : String → Option PackageData)
    (modPath : String)
    (henv : ∀ pid p, env pid = some p → p.imports.Nodup) :
    ∀ (fuel : Nat) (pid : String) (s : BuildState),
      (∀ e ∈ s.graph, e.2.Nodup) →
      ∀ e ∈ (buildGraph env modPath fuel pid s).graph, e.2.Nodup := by
  intro fuel
  induction fuel with
  | zero => intro pid s hs; simpa [buildGraph] using hs
  | succ n ih =>
    intro pid s hs
    rw [buildGraph]
    cases henvp : env pid with
    | none => simpa using hs
    | some p =>
      by_cases hv : pid ∈ s.visited
      · simpa [hv] using hs
      · simp only [hv, if_false]
        have hfold : ∀ (l : List String) (st : BuildState),
            (∀ e ∈ st.graph, e.2.Nodup) →
            ∀ e ∈ (l.foldl (fun st d => buildGraph env modPath n d st) st).graph,
              e.2.Nodup := by
          intro l
          induction l with
          | nil => intro st hst; simpa using hst
          | cons d ds ihl => intro st hst; exact ihl _ (ih d st hst)
        intro e he
        simp only [List.mem_cons] at he
        rcases he with rfl | he2
        · exact foldl_dedupAdd_nodup _ _ (((henv pid p henvp)).filter _)
        · exact hfold _ ⟨pid :: s.visited, s.graph⟩ (fun e' he' => hs e' he') e he2

/-- C9: every adjacency list recorded by the graph-building step of
`CheckCircularDependencies` contains each intra-module dependency path
at most once, whether the edge came from the loader's `Imports` map
(whose keys are unique), from a file's syntax-level import
declarations, or from both. -/
theorem builtGraph_adjacency_nodup (pkgs : List (String × PackageData))
    (modPath rootId : String) (fuel : Nat)
    (henv : ∀ pid p, pkgs.lookup pid = some p → p.imports.Nodup)
    (pid : String) :
    (builtGraph pkgs modPath rootId fuel pid).Nodup := by
  unfold builtGraph
  cases hl : ((buildGraph (fun q => pkgs.lookup q) modPath fuel rootId ⟨[], []⟩).graph).lookup pid with
  | none => simp
  | some deps =>
    have hmem := lookup_some_mem hl
    have := buildGraph_graph_entries_nodup (fun q => pkgs.lookup q) modPath
      (fun pid p h => henv pid p h) fuel rootId ⟨[], []⟩ (by simp) _ hmem
    simpa using this

theorem lookup_imports_nodup_of_all {pkgs : List (String × PackageData)}
    (hall : ∀ e ∈ pkgs, e.2.imports.Nodup) :
    ∀ pid p, pkgs.lookup pid = some p → p.imports.Nodup :=
  fun _ p h => hall _ (lookup_some_mem h)

theorem builtGraph_adjacency_nodup_witness :
    (builtGraph ringUniverse "pkg" "pkg1" 8 "pkg1").Nodup :=
  builtGraph_adjacency_nodup ringUniverse "pkg" "pkg1" 8
    (lookup_imports_nodup_of_all (by decide)) "pkg1"

/-- `chainB g l`: consecutive elements of `l` are joined by edges of
the dependency graph `g` (a DFS path). -/
def chainB (g : String → List String) : List String → Bool
  | a :: b :: rest => decide (b ∈ g a) && chainB g (b :: rest)
  | _ => true

/-- The graph has a (non-empty) circular dependency chain returning to
its starting package. -/
def hasCycle (g : String → List String) : Prop :=
  ∃ x l, chainB g (x :: (l ++ [x])) = true

theorem chainB_tail (g : String → List String) (a : String) (l : List String)
    (h : chainB g (a :: l) = true) : chainB g l = true := by
  cases l with
  | nil => rfl
  | cons b rest =>
    have h' : b ∈ g a ∧ chainB g (b :: rest) = true := by simpa [chainB] using h
    exact h'.2

theorem chainB_append_left (g : String → List String) :
    ∀ (l1 l2 : List String), chainB g (l1 ++ l2) = true → chainB g l2 = true := by
  intro l1
  induction l1 with
  | nil => intro l2 h; simpa using h
  | cons a l1 ih => intro l2 h; exact ih l2 (chainB_tail g a _ (by simpa using h))

theorem chainB_snoc (g : String → List String) (b : String) :
    ∀ (l : List String) (a : String), chainB g (l ++ [a]) = true → b ∈ g a →
      chainB g ((l ++ [a]) ++ [b]) = true := by
  intro l
  induction l with
  | nil => intro a h hb; simpa [chainB] using hb
  | cons c l ih =>
    intro a h hb
    cases l with
    | nil =>
      have hac : a ∈ g c := by simpa [chainB] using h
      simpa [chainB] using ⟨hac, hb⟩
    | cons d l' =>
      have h1 : d ∈ g c ∧ chainB g ((d :: l') ++ [a]) = true := by
        simpa [chainB] using h
      have h2 := ih a h1.2 hb
      simp only [List.cons_append, chainB, Bool.and_eq_true, decide_eq_true_eq]
      exact ⟨h1.1, by simpa using h2⟩

theorem cycle_of_chain_revisit (g : String → List String) (l : List String)
    (x : String) (hc : chainB g (l ++ [x]) = true) (hx : x ∈ l) : hasCycle g := by
  obtain ⟨l1, l2, rfl⟩ := List.append_of_mem hx
  refine ⟨x, l2, ?_⟩
  have : chainB g (l1 ++ (x :: (l2 ++ [x]))) = true := by simpa using hc
  exact chainB_append_left g l1 _ this

theorem foldl_depStep_none (next : String → DetectState → Option (Bool × DetectState)) :
    ∀ l : List String, l.foldl (depStep next) none = none := by
  intro l
  induction l with
  | nil => rfl
  | cons d ds ih => simpa [depStep] using ih

theorem foldl_depStep_true (next : String → DetectState → Option (Bool × DetectState))
    (s2 : DetectState) :
    ∀ l : List String, l.foldl (depStep next) (some (true, s2)) = some (true, s2) := by
  intro l
  induction l with
  | nil => rfl
  | cons d ds ih => simpa [depStep] using ih

/-- A `false` return of `detectCycle` restores the recursion stack
(`stack[pkg] = false`) and appends nothing to `CircularDeps`. -/
theorem detectCycle_false_pres (g : String → List String) :
    ∀ (fuel : Nat) (pkg : String) (path : List String) (s s' : DetectState),
      detectCycle g fuel pkg path s = some (false, s') →
      s'.stack = s.stack ∧ s'.circularDeps = s.circularDeps := by
  intro fuel
  induction fuel with
  | zero => intro pkg path s s' h; simp [detectCycle] at h
  | succ n ih =>
    intro pkg path s s' h
    rw [detectCycle] at h
    by_cases h1 : pkg ∈ s.stack
    · simp [h1] at h
    · by_cases h2 : pkg ∈ s.visited
      · simp [h1, h2] at h
        exact ⟨h.symm ▸ rfl, h.symm ▸ rfl⟩
      · simp only [h1, h2, if_false, ite_false, if_neg, not_false_iff] at h
        have loop : ∀ (l : List String) (st st' : DetectState),
            l.foldl (depStep (fun d s2 => detectCycle g n d (path ++ [pkg]) s2))
              (some (false, st)) = some (false, st') →
            st'.stack = st.stack ∧ st'.circularDeps = st.circularDeps := by
          intro l
          induction l with
          | nil =>
            intro st st' hl
            simp at hl
            exact ⟨hl.symm ▸ rfl, hl.symm ▸ rfl⟩
          | cons d ds ihl =>
            intro st st' hl
            rw [List.foldl_cons] at hl
            cases hd : detectCycle g n d (path ++ [pkg]) st with
            | none =>
              rw [show depStep (fun d s2 => detectCycle g n d (path ++ [pkg]) s2)
                  (some (false, st)) d = none by simp [depStep, hd]] at hl
              rw [foldl_depStep_none] at hl
              exact absurd hl (by simp)
            | some v =>
              obtain ⟨b2, s2⟩ := v
              cases b2 with
              | true =>
                rw [show depStep (fun d s2 => detectCycle g n d (path ++ [pkg]) s2)
                    (some (false, st)) d = some (true, s2) by simp [depStep, hd]] at hl
                rw [foldl_depStep_true] at hl
                exact absurd hl (by simp)
              | false =>
                rw [show depStep (fun d s2 => detectCycle g n d (path ++ [pkg]) s2)
                    (some (false, st)) d = some (false, s2) by simp [depStep, hd]] at hl
                have hp := ih d (path ++ [pkg]) st s2 hd
                have hq := ihl s2 st' hl
                exact ⟨hq.1.trans hp.1, hq.2.trans hp.2⟩
        cases hr : (g pkg).foldl (depStep (fun d s2 => detectCycle g n d (path ++ [pkg]) s2))
            (some (false, ⟨pkg :: s.visited, pkg :: s.stack, s.circularDeps⟩)) with
        | none => rw [hr] at h; simp at h
        | some v =>
          obtain ⟨b2, s2⟩ := v
          cases b2 with
          | true => rw [hr] at h; simp at h
          | false =>
            rw [hr] at h
            simp at h
            have hl := loop (g pkg) _ s2 hr
            rw [← h]
            constructor
            · show s2.stack.erase pkg = s.stack
              rw [show s2.stack = pkg :: s.stack from hl.1]
              exact List.erase_cons_head pkg s.stack
            · exact hl.2

/-- A `true` return of `detectCycle` appends to `CircularDeps` the
edges of a real DFS path of the graph that begins at the head of the
current path and closes on a package already on that path. -/
theorem detectCycle_true_chain (g : String → List String) :
    ∀ (fuel : Nat) (pkg : String) (path : List String) (s s' : DetectState),
      chainB g (path ++ [pkg]) = true →
      (∀ q, q ∈ s.stack ↔ q ∈ path) →
      detectCycle g fuel pkg path s = some (true, s') →
      ∃ l x, chainB g (l ++ [x]) = true ∧ x ∈ l ∧
        s'.circularDeps = s.circularDeps ++ edgeStrings (l ++ [x]) ∧
        l.head? = (path ++ [pkg]).head? := by
  intro fuel
  induction fuel with
  | zero => intro pkg path s s' hch hst h; simp [detectCycle] at h
  | succ n ih =>
    intro pkg path s s' hch hst h
    rw [detectCycle] at h
    by_cases h1 : pkg ∈ s.stack
    · simp only [h1, if_true, ite_true, Option.some.injEq, Prod.mk.injEq, true_and] at h
      refine ⟨path, pkg, hch, (hst pkg).mp h1, ?_, ?_⟩
      · rw [← h]
      · have hpne : path ≠ [] := by
          intro hnil
          rw [hnil] at hst
          simpa using (hst pkg).mp h1
        exact (List.head?_append_of_ne_nil _ hpne).symm
    · by_cases h2 : pkg ∈ s.visited
      · simp [h1, h2] at h
      · simp only [h1, h2, if_false, ite_false, if_neg, not_false_iff] at h
        have loopT : ∀ (ds : List String) (st st' : DetectState),
            (∀ d ∈ ds, chainB g ((path ++ [pkg]) ++ [d]) = true) →
            (∀ q, q ∈ st.stack ↔ q ∈ path ++ [pkg]) →
            ds.foldl (depStep (fun d s2 => detectCycle g n d (path ++ [pkg]) s2))
              (some (false, st)) = some (true, st') →
            ∃ l x, chainB g (l ++ [x]) = true ∧ x ∈ l ∧
              st'.circularDeps = st.circularDeps ++ edgeStrings (l ++ [x]) ∧
              l.head? = (path ++ [pkg]).head? := by
          intro ds
          induction ds with
          | nil => intro st st' hd hstk hl; simp at hl
          | cons d ds ihl =>
            intro st st' hd hstk hl
            rw [List.foldl_cons] at hl
            cases hcall : detectCycle g n d (path ++ [pkg]) st with
            | none =>
              rw [show depStep (fun d s2 => detectCycle g n d (path ++ [pkg]) s2)
                  (some (false, st)) d = none by simp [depStep, hcall]] at hl
              rw [foldl_depStep_none] at hl
              exact absurd hl (by simp)
            | some v =>
              obtain ⟨b2, s2⟩ := v
              cases b2 with
              | true =>
                rw [show depStep (fun d s2 => detectCycle g n d (path ++ [pkg]) s2)
                    (some (false, st)) d = some (true, s2) by simp [depStep, hcall]] at hl
                rw [foldl_depStep_true] at hl
                have hs2 : s2 = st' := by simpa using hl
                subst hs2
                have := ih d (path ++ [pkg]) st s2
                  (hd d (by simp)) hstk hcall
                obtain ⟨l, x, hc, hx, hcirc, hhead⟩ := this
                refine ⟨l, x, hc, hx, hcirc, ?_⟩
                rw [hhead]
                exact List.head?_append_of_ne_nil _ (by simp)
              | false =>
                rw [show depStep (fun d s2 => detectCycle g n d (path ++ [pkg]) s2)
                    (some (false, st)) d = some (false, s2) by simp [depStep, hcall]] at hl
                have hp := detectCycle_false_pres g n d (path ++ [pkg]) st s2 hcall
                have hstk2 : ∀ q, q ∈ s2.stack ↔ q ∈ path ++ [pkg] := by
                  intro q; rw [hp.1]; exact hstk q
                have := ihl s2 st' (fun d' hd' => hd d' (by simp [hd'])) hstk2 hl
                obtain ⟨l, x, hc, hx, hcirc, hhead⟩ := this
                exact ⟨l, x, hc, hx, by rw [hcirc, hp.2], hhead⟩
        cases hr : (g pkg).foldl (depStep (fun d s2 => detectCycle g n d (path ++ [pkg]) s2))
            (some (false, ⟨pkg :: s.visited, pkg :: s.stack, s.circularDeps⟩)) with
        | none => rw [hr] at h; simp at h
        | some v =>
          obtain ⟨b2, s2⟩ := v
          cases b2 with
          | false => rw [hr] at h; simp at h
          | true =>
            rw [hr] at h
            simp at h
            subst h
            refine loopT (g pkg) ⟨pkg :: s.visited, pkg :: s.stack, s.circularDeps⟩ s2 ?_ ?_ hr
            · intro d hd
              exact chainB_snoc g d path pkg hch hd
            · intro q
              constructor
              · intro hq
                rcases List.mem_cons.mp hq with rfl | hq2
                · simp
                · simp [ (hst q).mp hq2 ]
              · intro hq
                rcases List.mem_append.mp hq with hq2 | hq2
                · exact List.mem_cons_of_mem _ ((hst q).mpr hq2)
                · simp at hq2
                  subst hq2
                  simp

/-- A package whose dependency chain leads into a cycle that does not
pass through it: `m/s` imports `m/a`, and `m/a`, `m/b` import each
other. -/
def tailUniverse : List (String × PackageData) :=
  [("m/s", ⟨["m/a"], [["m/a"]], []⟩),
   ("m/a", ⟨["m/b"], [["m/b"]], []⟩),
   ("m/b", ⟨["m/a"], [["m/a"]], []⟩)]

/-- C2, counterexample: starting at `m/s`, the DFS revisits `m/a`,
whose first occurrence on the stack is *after* the edge
`m/s -> m/a`; the reported `CircularDeps` nevertheless contains that
preceding edge, so the cycle reported is not the stack segment from
the revisited node's first occurrence. -/
theorem detectCycle_tail_edge_counterexample :
    ((CheckCircularDependencies (.loaded tailUniverse "m/") "./s" 8).map
        (Except.map CircResult.circularDeps) =
      some (.ok ["m/s -> m/a", "m/a -> m/b", "m/b -> m/a"])) ∧
    "m/s -> m/a" ∈ ["m/s -> m/a", "m/a -> m/b", "m/b -> m/a"] ∧
    (["m/s -> m/a", "m/a -> m/b", "m/b -> m/a"] ≠ ["m/a -> m/b", "m/b -> m/a"]) :=
  ⟨rfl, by decide, by decide⟩

/-- A run of `detectCycle` from the start package (empty stack) that
reports a cycle leaves in `CircularDeps` exactly the edges of a DFS
path beginning at the start package, closed by the edge into a node
lying on that path. -/
theorem detectCycle_run_chain (g : String → List String)
    (fuel : Nat) (start : String) (s' : DetectState)
    (h : detectCycle g fuel start [] ⟨[], [], []⟩ = some (true, s')) :
    ∃ l x, l ≠ [] ∧ l.head? = some start ∧ chainB g (l ++ [x]) = true ∧
      x ∈ l ∧ s'.circularDeps = edgeStrings (l ++ [x]) := by
  obtain ⟨l, x, hc, hx, hcirc, hhead⟩ :=
    detectCycle_true_chain g fuel start [] ⟨[], [], []⟩ s' (by simp [chainB]) (by simp) h
  refine ⟨l, x, ?_, by simpa using hhead, hc, hx, by simpa using hcirc⟩
  intro hnil
  rw [hnil] at hx
  simp at hx

/-- C2, amended: when `detectCycle` (run from the start package with an
empty stack) reports a cycle, `CircularDeps` consists of exactly the
edge strings along the DFS path from the *start package* to the
current node, closed by the edge into the revisited node (which lies
somewhere on that path) — not merely the segment from the revisited
node's first occurrence. -/
theorem detectCycle_reports_path_from_root (g : String → List String)
    (fuel : Nat) (start : String) (s' : DetectState)
    (h : detectCycle g fuel start [] ⟨[], [], []⟩ = some (true, s')) :
    ∃ l x, l ≠ [] ∧ l.head? = some start ∧ chainB g (l ++ [x]) = true ∧
      x ∈ l ∧ s'.circularDeps = edgeStrings (l ++ [x]) :=
  detectCycle_run_chain g fuel start s' h

theorem detectCycle_reports_path_from_root_witness :
    ∃ l x, l ≠ [] ∧ l.head? = some "m/s" ∧
      chainB (builtGraph tailUniverse "m/" "m/s" 8) (l ++ [x]) = true ∧
      x ∈ l ∧
      (⟨["m/b", "m/a", "m/s"], ["m/b", "m/a", "m/s"],
        ["m/s -> m/a", "m/a -> m/b", "m/b -> m/a"]⟩ : DetectState).circularDeps =
        edgeStrings (l ++ [x]) :=
  detectCycle_reports_path_from_root (builtGraph tailUniverse "m/" "m/s" 8) 8 "m/s"
    ⟨["m/b", "m/a", "m/s"], ["m/b", "m/a", "m/s"],
      ["m/s -> m/a", "m/a -> m/b", "m/b -> m/a"]⟩ rfl

/-- C3: for an acyclic dependency graph, `CheckCircularDependencies`
reports `HasCircularDeps=false` and an empty `CircularDeps` list,
whatever the start package. -/
theorem checkCircular_acyclic_empty (rootId pkgPath modPath : String)
    (root : PackageData) (rest : List (String × PackageData)) (fuel : Nat)
    (r : CircResult)
    (hacyc : ¬ hasCycle (builtGraph ((rootId, root) :: rest) modPath rootId fuel))
    (h : CheckCircularDependencies (.loaded ((rootId, root) :: rest) modPath) pkgPath fuel =
      some (.ok r)) :
    r.hasCircularDeps = false ∧ r.circularDeps = [] := by
  rw [CheckCircularDependencies] at h
  by_cases he : root.errors.isEmpty
  · simp only [he, if_true, ite_true] at h
    cases hd : detectCycle (builtGraph ((rootId, root) :: rest) modPath rootId fuel)
        fuel rootId [] ⟨[], [], []⟩ with
    | none => rw [hd] at h; simp at h
    | some v =>
      obtain ⟨found, ds⟩ := v
      cases found with
      | true =>
        exfalso
        obtain ⟨l, x, _, _, hc, hx, _⟩ :=
          detectCycle_run_chain _ fuel rootId ds hd
        exact hacyc (cycle_of_chain_revisit _ l x hc hx)
      | false =>
        rw [hd] at h
        simp at h
        have hpres := detectCycle_false_pres _ fuel rootId [] _ ds hd
        rw [← h]
        exact ⟨rfl, by simpa using hpres.2⟩
  · simp only [he, if_false, ite_false] at h
    simp at h
    rw [← h]
    exact ⟨rfl, rfl⟩

theorem chainB_getLast_rank (g : String → List String) (rank : String → Nat)
    (hr : ∀ a b, b ∈ g a → rank b < rank a) :
    ∀ (l : List String) (a b : String), chainB g (a :: l) = true →
      l.getLast? = some b → rank b < rank a := by
  intro l
  induction l with
  | nil => intro a b hc hl; simp at hl
  | cons c l' ih =>
    intro a b hc hl
    have h1 : c ∈ g a ∧ chainB g (c :: l') = true := by simpa [chainB] using hc
    cases l' with
    | nil =>
      simp at hl
      subst hl
      exact hr _ _ h1.1
    | cons d l'' =>
      have := ih c b h1.2 (by simpa using hl)
      exact this.trans (hr a c h1.1)

theorem acyclic_of_rank (g : String → List String) (rank : String → Nat)
    (hr : ∀ a b, b ∈ g a → rank b < rank a) : ¬ hasCycle g := by
  rintro ⟨x, l, hc⟩
  have hlast : (l ++ [x]).getLast? = some x := by simp
  exact lt_irrefl _ (chainB_getLast_rank g rank hr (l ++ [x]) x x hc hlast)

/-- An acyclic chain of three single-file packages:
pkg1 imports pkg2, pkg2 imports pkg3, pkg3 imports nothing. -/
def lineUniverse : List (String × PackageData) :=
  [("pkg1", ⟨["pkg2"], [["pkg2"]], []⟩),
   ("pkg2", ⟨["pkg3"], [["pkg3"]], []⟩),
   ("pkg3", ⟨[], [[]], []⟩)]

theorem lineUniverse_graph_acyclic :
    ¬ hasCycle (builtGraph lineUniverse "pkg" "pkg1" 8) := by
  apply acyclic_of_rank _ (fun p => if p = "pkg1" then 2 else if p = "pkg2" then 1 else 0)
  intro a b hb
  have hgraph : (buildGraph (fun q => lineUniverse.lookup q) "pkg" 8 "pkg1" ⟨[], []⟩).graph =
      [("pkg1", ["pkg2"]), ("pkg2", ["pkg3"]), ("pkg3", [])] := rfl
  unfold builtGraph at hb
  rw [hgraph] at hb
  by_cases h1 : a = "pkg1"
  · subst h1
    have : b = "pkg2" := by simpa [List.lookup] using hb
    subst this
    decide
  · by_cases h2 : a = "pkg2"
    · subst h2
      have : b = "pkg3" := by simpa [List.lookup] using hb
      subst this
      decide
    · by_cases h3 : a = "pkg3"
      · subst h3
        simp [List.lookup] at hb
      · have e1 : (a == "pkg1") = false := by simpa using h1
        have e2 : (a == "pkg2") = false := by simpa using h2
        have e3 : (a == "pkg3") = false := by simpa using h3
        simp [List.lookup, e1, e2, e3] at hb

theorem checkCircular_acyclic_empty_witness :
    ({ valid := true, errors := [], hasCircularDeps := false,
        circularDeps := [] } : CircResult).hasCircularDeps = false ∧
    ({ valid := true, errors := [], hasCircularDeps := false,
        circularDeps := [] } : CircResult).circularDeps = [] :=
  checkCircular_acyclic_empty "pkg1" "./pkg1" "pkg"
    ⟨["pkg2"], [["pkg2"]], []⟩
    [("pkg2", ⟨["pkg3"], [["pkg3"]], []⟩), ("pkg3", ⟨[], [[]], []⟩)] 8
    { valid := true, errors := [], hasCircularDeps := false, circularDeps := [] }
    lineUniverse_graph_acyclic rfl

/-- Shallow embedding of `FieldInfo` (readgo `types.go`). -/
structure FieldInfo where
  name : String
  typ : String
  tag : String
  deriving Repr, DecidableEq

/-- Shallow embedding of `TypeInfo` (readgo `types.go`). -/
structure TypeInfo where
  name : String
  pkg : String
  typ : String
  fields : List FieldInfo
  deriving Repr, DecidableEq

/-- Shallow embedding of `TypeCacheKey` (cache.go). -/
structure TypeCacheKey where
  pkg : String
  typeName : String
  kind : String
  deriving Repr, DecidableEq

/-- Shallow embedding of `CacheEntry` (cache.go); times are abstract
instants (`time.Time` ordered by `Before`). -/
structure CacheEntry where
  data : TypeInfo
  createdAt : Nat
  expiresAt : Nat
  deriving Repr, DecidableEq

/-- `sync.Map.Store`: replace the entry for the key, or append it. -/
def storeAssoc (k : TypeCacheKey) (e : CacheEntry) :
    List (TypeCacheKey × CacheEntry) → List (TypeCacheKey × CacheEntry)
  | [] => [(k, e)]
  | (k', e') :: rest =>
    if k' = k then (k, e) :: rest else (k', e') :: storeAssoc k e rest

/-- `sync.Map.Load`: the entry stored for the key, if any. -/
def lookupAssoc (k : TypeCacheKey) :
    List (TypeCacheKey × CacheEntry) → Option CacheEntry
  | [] => none
  | (k', e) :: rest => if k' = k then some e else lookupAssoc k rest

/-- `sync.Map.Delete`: remove the entry for the key. -/
def deleteAssoc (k : TypeCacheKey)
    (l : List (TypeCacheKey × CacheEntry)) : List (TypeCacheKey × CacheEntry) :=
  l.filter (fun p => decide (p.1 ≠ k))

/-- Shallow embedding of `Cache` (cache.go), restricted to the type
cache (`typeCache`); the package and file caches are word-for-word
identical in structure and play no part in the properties below. -/
structure Cache where
  typeEntries : List (TypeCacheKey × CacheEntry)
  ttl : Nat
  deriving Repr, DecidableEq

/-- `Cache.GetType` (cache.go): a hit whose expiry lies in the future
returns the cached value; an expired entry is deleted during the
lookup and reported as a miss.  The first component is the returned
value (`nil, false` becoming `none`), the second the cache after the
call. -/
def Cache.GetType (c : Cache) (now : Nat) (key : TypeCacheKey) :
    Option TypeInfo × Cache :=
  match lookupAssoc key c.typeEntries with
  | some entry =>
    if now < entry.expiresAt then (some entry.data, c)
    else (none, { c with typeEntries := deleteAssoc key c.typeEntries })
  | none => (none, c)

/-- `Cache.SetType` (cache.go): store the value with creation time
`now` and expiry `now + ttl`. -/
def Cache.SetType (c : Cache) (now : Nat) (key : TypeCacheKey)
    (value : TypeInfo) : Cache :=
  { c with typeEntries := storeAssoc key ⟨value, now, now + c.ttl⟩ c.typeEntries }

theorem lookupAssoc_storeAssoc_self (k : TypeCacheKey) (e : CacheEntry) :
    ∀ l, lookupAssoc k (storeAssoc k e l) = some e := by
  intro l
  induction l with
  | nil => simp [storeAssoc, lookupAssoc]
  | cons p rest ih =>
    obtain ⟨k', e'⟩ := p
    by_cases h : k' = k
    · simp [storeAssoc, lookupAssoc, h]
    · simp [storeAssoc, lookupAssoc, h, ih]

theorem lookupAssoc_deleteAssoc_self (k : TypeCacheKey) :
    ∀ l, lookupAssoc k (deleteAssoc k l) = none := by
  intro l
  induction l with
  | nil => rfl
  | cons p rest ih =>
    obtain ⟨k', e'⟩ := p
    by_cases h : k' = k
    · simpa [deleteAssoc, h] using ih
    · simpa [deleteAssoc, lookupAssoc, h] using ih

/-- C5: storing a value with `SetType` and retrieving it with `GetType`
before the TTL has elapsed returns the identical value (a hit); after
the TTL has elapsed the lookup is a miss and the expired entry is
deleted from the cache by that very lookup. -/
theorem cache_ttl_roundtrip (c : Cache) (key : TypeCacheKey) (v : TypeInfo)
    (t0 t1 : Nat) :
    (t1 < t0 + c.ttl →
      Cache.GetType (Cache.SetType c t0 key v) t1 key =
        (some v, Cache.SetType c t0 key v)) ∧
    (t0 + c.ttl ≤ t1 →
      (Cache.GetType (Cache.SetType c t0 key v) t1 key).1 = none ∧
      lookupAssoc key
        (Cache.GetType (Cache.SetType c t0 key v) t1 key).2.typeEntries = none) := by
  have hl : lookupAssoc key (Cache.SetType c t0 key v).typeEntries =
      some ⟨v, t0, t0 + c.ttl⟩ := lookupAssoc_storeAssoc_self key _ _
  constructor
  · intro hlt
    simp [Cache.GetType, hl, hlt]
  · intro hge
    have hnot : ¬ t1 < t0 + c.ttl := not_lt.mpr hge
    constructor
    · simp [Cache.GetType, hl, hnot]
    · simp [Cache.GetType, hl, hnot]
      exact lookupAssoc_deleteAssoc_self key _

theorem cache_ttl_roundtrip_witness :
    (Cache.GetType (Cache.SetType ⟨[], 10⟩ 0 ⟨"p", "T", ""⟩ ⟨"T", "p", "struct", []⟩) 5
        ⟨"p", "T", ""⟩ =
      (some ⟨"T", "p", "struct", []⟩,
        Cache.SetType ⟨[], 10⟩ 0 ⟨"p", "T", ""⟩ ⟨"T", "p", "struct", []⟩)) ∧
    ((Cache.GetType (Cache.SetType ⟨[], 10⟩ 0 ⟨"p", "T", ""⟩ ⟨"T", "p", "struct", []⟩) 20
        ⟨"p", "T", ""⟩).1 = none ∧
      lookupAssoc ⟨"p", "T", ""⟩
        (Cache.GetType (Cache.SetType ⟨[], 10⟩ 0 ⟨"p", "T", ""⟩ ⟨"T", "p", "struct", []⟩) 20
          ⟨"p", "T", ""⟩).2.typeEntries = none) :=
  ⟨(cache_ttl_roundtrip ⟨[], 10⟩ ⟨"p", "T", ""⟩ ⟨"T", "p", "struct", []⟩ 0 5).1 (by decide),
    (cache_ttl_roundtrip ⟨[], 10⟩ ⟨"p", "T", ""⟩ ⟨"T", "p", "struct", []⟩ 0 20).2 (by decide)⟩

/-- Lexicographic order on character lists (Go's byte-wise string
comparison, identical for the ASCII level names). -/
def charListLe : List Char → List Char → Bool
  | [], _ => true
  | _ :: _, [] => false
  | a :: as, b :: bs => if a = b then charListLe as bs else decide (a < b)

/-- `level >= min` on `ValidationLevel` strings, as Go compares them. -/
def strLevelGe (level min : String) : Bool :=
  charListLe min.data level.data

/-- What the readgo2 `ValidateFile` observes from the file system and
the compiler front end for one file: whether `os.Stat` finds it, the
`parser.ParseFile` outcome, the type-checker diagnostics (message,
line, column), the unused-import and unused-variable findings, and the
strict-level `packages.Load` outcome (a load error, or the loaded
package's error list). -/
structure FileEnv where
  fileExists : Bool
  parseError : Option String
  typeErrors : List (String × Nat × Nat)
  unusedImports : List String
  unusedVars : List (String × Nat × Nat)
  loadOutcome : Except String (List String)
  deriving Repr

/-- The `ValidationResult` fields written by readgo2 `ValidateFile`. -/
structure FileValidation where
  valid : Bool
  errors : List ValidationError
  warnings : List ValidationError
  syntaxErrors : Nat
  typeErrors : Nat
  dependencyErrors : Nat
  unusedImports : Nat
  unusedVariables : Nat
  filesChecked : Nat
  deriving Repr, DecidableEq

/-- Embedding of readgo2 `DefaultValidator.ValidateFile`
(validator.go): a nil context is the only returned error; a missing
file, a parse failure, type errors, and strict-level dependency
problems (including a failing `packages.Load` call) all land in the
result payload. -/
def ValidateFile (env : FileEnv) (ctxNil : Bool) (filePath : String)
    (level : String) : Except String FileValidation :=
  if ctxNil then .error "nil context"
  else if env.fileExists = false then
    .ok { valid := false
          errors := [⟨"error", "FILE_NOT_FOUND", "file not found: " ++ filePath,
            filePath, 0, 0, []⟩]
          warnings := [], syntaxErrors := 0, typeErrors := 0
          dependencyErrors := 0, unusedImports := 0, unusedVariables := 0
          filesChecked := 0 }
  else
    match env.parseError with
    | some msg =>
      .ok { valid := false
            errors := [⟨"error", "SYNTAX_ERROR", msg, filePath, 0, 0, []⟩]
            warnings := [], syntaxErrors := 1, typeErrors := 0
            dependencyErrors := 0, unusedImports := 0, unusedVariables := 0
            filesChecked := 0 }
    | none =>
      let typeErrs := if strLevelGe level "standard" then
          env.typeErrors.map (fun e =>
            (⟨"error", "TYPE_ERROR", e.1, filePath, e.2.1, e.2.2, []⟩ : ValidationError))
        else []
      let stdWarns := if strLevelGe level "standard" then
          env.unusedImports.map (fun p =>
            (⟨"warning", "UNUSED_IMPORT", "unused import: " ++ p, filePath, 0, 0, []⟩ :
              ValidationError)) ++
          env.unusedVars.map (fun v =>
            (⟨"warning", "UNUSED_VAR", "unused variable: " ++ v.1, filePath,
              v.2.1, v.2.2, []⟩ : ValidationError))
        else []
      let depErrs := if level = "strict" then
          match env.loadOutcome with
          | .error m => [(⟨"error", "DEP_ERROR", m, filePath, 0, 0, []⟩ : ValidationError)]
          | .ok pkgErrs => pkgErrs.map (fun m =>
              (⟨"error", "DEP_ERROR", m, filePath, 0, 0, []⟩ : ValidationError))
        else []
      .ok { valid := typeErrs.isEmpty && depErrs.isEmpty
            errors := typeErrs ++ depErrs
            warnings := stdWarns
            syntaxErrors := 0
            typeErrors := typeErrs.length
            dependencyErrors := depErrs.length
            unusedImports := (if strLevelGe level "standard" then
              env.unusedImports.length else 0)
            unusedVariables := (if strLevelGe level "standard" then
              env.unusedVars.length else 0)
            filesChecked := 1 }

/-- What the readgo `ValidateFile` (the v1 variant) observes: the
`os.Stat` outcome, the parse outcome, blank imports, and `Bad*` AST
nodes (position strings). -/
structure V1FileEnv where
  statErr : Bool
  parseError : Option String
  blankImports : List (String × Nat × Nat)
  badNodes : List String
  deriving Repr, DecidableEq

/-- The result fields written by readgo `ValidateFile`. -/
structure V1FileValidation where
  errors : List String
  warnings : List (String × String × Nat × Nat)
  deriving Repr, DecidableEq

/-- Embedding of readgo `DefaultValidator.ValidateFile` (the v1
variant): an empty path or a failing `os.Stat` — including a missing
file — is a returned error; parse errors and `Bad*` nodes land in the
payload. -/
def V1ValidateFile (env : V1FileEnv) (filePath : String) :
    Except String V1FileValidation :=
  if filePath = "" then .error "empty file path"
  else if env.statErr then .error "file access error"
  else
    match env.parseError with
    | some m => .ok { errors := ["parse error: " ++ m], warnings := [] }
    | none =>
      .ok { errors := env.badNodes.map (fun pos => "syntax error at " ++ pos)
            warnings := env.blankImports.map (fun b =>
              ("unused_import", "unused import: " ++ b.1, b.2.1, b.2.2)) }

/-- Whether a Go call returned a nil error. -/
def exceptIsOk {α : Type} : Except String α → Bool
  | .ok _ => true
  | .error _ => false

/-- The payload's validity flag, when a payload was returned. -/
def payloadValid : Except String FileValidation → Option Bool
  | .ok r => some r.valid
  | .error _ => none

/-- The codes of the payload's errors, when a payload was returned. -/
def payloadCodes : Except String FileValidation → Option (List String)
  | .ok r => some (r.errors.map ValidationError.code)
  | .error _ => none

/-- C6, counterexample: readgo2's `ValidateFile` on a non-existent file
returns a NIL error — the failure is only in the payload
(`Valid=false`, code `FILE_NOT_FOUND`) — where the claim demands a
non-nil returned error. -/
theorem validateFile_missing_file_counterexample :
    ValidateFile ⟨false, none, [], [], [], .ok []⟩ false "missing.go" "standard" =
      .ok { valid := false
            errors := [⟨"error", "FILE_NOT_FOUND", "file not found: missing.go",
              "missing.go", 0, 0, []⟩]
            warnings := [], syntaxErrors := 0, typeErrors := 0
            dependencyErrors := 0, unusedImports := 0, unusedVariables := 0
            filesChecked := 0 } ∧
    exceptIsOk (ValidateFile ⟨false, none, [], [], [], .ok []⟩ false "missing.go"
      "standard") = true :=
  ⟨rfl, rfl⟩

/-- C6, amended: in readgo2's `ValidateFile` the only non-nil returned
error is the nil-context check — compiler diagnostics (syntax and type
errors) are captured in the payload with `Valid=false`, and a missing
file is likewise reported in the payload (nil returned error), not as
a returned error.  In the readgo (v1) variant, a missing file — any
`os.Stat` failure — does produce a non-nil returned error. -/
theorem validateFile_error_channels :
    (∀ (env : FileEnv) (fp level : String),
      exceptIsOk (ValidateFile env false fp level) = true) ∧
    (∀ (env : FileEnv) (fp level : String),
      ValidateFile env true fp level = .error "nil context") ∧
    (∀ (env : FileEnv) (fp level msg : String),
      env.fileExists = true → env.parseError = some msg →
      payloadValid (ValidateFile env false fp level) = some false ∧
      payloadCodes (ValidateFile env false fp level) = some ["SYNTAX_ERROR"]) ∧
    (∀ (env : FileEnv) (fp level : String),
      env.fileExists = true → env.parseError = none →
      strLevelGe level "standard" = true → env.typeErrors ≠ [] →
      payloadValid (ValidateFile env false fp level) = some false ∧
      "TYPE_ERROR" ∈ (payloadCodes (ValidateFile env false fp level)).getD []) ∧
    (∀ (env : V1FileEnv) (fp : String), fp ≠ "" → env.statErr = true →
      V1ValidateFile env fp = .error "file access error") := by
  refine ⟨?_, ?_, ?_, ?_, ?_⟩
  · intro env fp level
    cases hfe : env.fileExists <;> cases hpe : env.parseError <;>
      simp [ValidateFile, hfe, hpe, exceptIsOk]
  · intro env fp level
    rfl
  · intro env fp level msg hfe hpe
    simp [ValidateFile, hfe, hpe, payloadValid, payloadCodes]
  · intro env fp level hfe hpe hlev hte
    have hne : env.typeErrors.isEmpty = false := by
      cases h : env.typeErrors with
      | nil => exact absurd h hte
      | cons a l => simp [List.isEmpty]
    cases h : env.typeErrors with
    | nil => exact absurd h hte
    | cons e rest =>
      constructor
      · simp [ValidateFile, hfe, hpe, payloadValid, hlev, h]
      · simp [ValidateFile, hfe, hpe, payloadCodes, hlev, h]
  · intro env fp hne hstat
    simp [V1ValidateFile, hne, hstat]

theorem validateFile_error_channels_witness :
    exceptIsOk (ValidateFile ⟨true, none, [], [], [], .ok []⟩ false "a.go" "basic") = true ∧
    ValidateFile ⟨true, none, [], [], [], .ok []⟩ true "a.go" "basic" =
      .error "nil context" ∧
    (payloadValid (ValidateFile ⟨true, some "unexpected EOF", [], [], [], .ok []⟩
        false "a.go" "basic") = some false ∧
      payloadCodes (ValidateFile ⟨true, some "unexpected EOF", [], [], [], .ok []⟩
        false "a.go" "basic") = some ["SYNTAX_ERROR"]) ∧
    (payloadValid (ValidateFile ⟨true, none, [("undeclared name: x", 3, 5)], [], [], .ok []⟩
        false "a.go" "standard") = some false ∧
      "TYPE_ERROR" ∈ (payloadCodes (ValidateFile
        ⟨true, none, [("undeclared name: x", 3, 5)], [], [], .ok []⟩
        false "a.go" "standard")).getD []) ∧
    V1ValidateFile ⟨true, none, [], []⟩ "a.go" = .error "file access error" :=
  ⟨validateFile_error_channels.1 ⟨true, none, [], [], [], .ok []⟩ "a.go" "basic",
    validateFile_error_channels.2.1 ⟨true, none, [], [], [], .ok []⟩ "a.go" "basic",
    validateFile_error_channels.2.2.1 ⟨true, some "unexpected EOF", [], [], [], .ok []⟩
      "a.go" "basic" "unexpected EOF" rfl rfl,
    validateFile_error_channels.2.2.2.1
      ⟨true, none, [("undeclared name: x", 3, 5)], [], [], .ok []⟩ "a.go" "standard"
      rfl rfl (by decide) (by decide),
    validateFile_error_channels.2.2.2.2 ⟨true, none, [], []⟩ "a.go"
      (by decide) rfl⟩

/-- The orders in which mutex-guarded appends from concurrently running
goroutines can reach a shared slice: each goroutine's own appends keep
their program order, appends of different goroutines interleave
arbitrarily.  `Interleaving ls out` holds when `out` is such a merge of
the per-goroutine sequences `ls`. -/
inductive Interleaving {α : Type} : List (List α) → List α → Prop where
  | nil : ∀ ls, (∀ l ∈ ls, l = []) → Interleaving ls []
  | take : ∀ (ls : List (List α)) (i : Nat) (hi : i < ls.length) (x : α)
      (rest out : List α),
      ls.get ⟨i, hi⟩ = x :: rest →
      Interleaving (ls.set i rest) out →
      Interleaving ls (x :: out)

theorem Interleaving.perm_flatten {α : Type} {ls : List (List α)} {out : List α}
    (h : Interleaving ls out) : out.Perm ls.flatten := by
  induction h with
  | nil ls hall =>
    have : ls.flatten = [] := by
      rw [List.flatten_eq_nil_iff]
      exact hall
    rw [this]
  | take ls i hi x rest out hget hint ih =>
    have hset : ls.set i rest = List.take i ls ++ rest :: List.drop (i + 1) ls :=
      List.set_eq_take_cons_drop rest hi
    have hgetElem : ls[i] = x :: rest := by
      simpa using hget
    have hls : ls = List.take i ls ++ (x :: rest) :: List.drop (i + 1) ls := by
      conv_lhs => rw [← List.take_append_drop i ls]
      rw [List.drop_eq_getElem_cons hi, hgetElem]
    have h1 : (x :: out).Perm (x :: (ls.set i rest).flatten) := ih.cons x
    refine h1.trans ?_
    have h2 : (ls.set i rest).flatten =
        (List.take i ls).flatten ++ (rest ++ (List.drop (i + 1) ls).flatten) := by
      rw [hset]; simp
    rw [h2]
    have h4 : (x :: ((List.take i ls).flatten ++
        (rest ++ (List.drop (i + 1) ls).flatten))).Perm
        ((List.take i ls).flatten ++ (x :: (rest ++ (List.drop (i + 1) ls).flatten))) :=
      List.perm_middle.symm
    refine h4.trans ?_
    have h5 : ls.flatten = (List.take i ls).flatten ++
        (x :: (rest ++ (List.drop (i + 1) ls).flatten)) := by
      conv_lhs => rw [hls]
      simp
    rw [h5]

theorem interleaving_cons_nil {α : Type} {ls : List (List α)} {out : List α}
    (h : Interleaving ls out) : Interleaving ([] :: ls) out := by
  induction h with
  | nil ls hall =>
    refine .nil ([] :: ls) ?_
    intro l hl
    rcases List.mem_cons.mp hl with rfl | hl2
    · rfl
    · exact hall l hl2
  | take ls i hi x rest out hget hint ih =>
    refine .take ([] :: ls) (i + 1) (by simpa using hi) x rest out ?_ ?_
    · simpa using hget
    · simpa using ih

theorem interleaving_flatten {α : Type} : ∀ ls : List (List α), Interleaving ls ls.flatten := by
  intro ls
  induction ls with
  | nil => exact .nil [] (by simp)
  | cons l ls ih =>
    induction l with
    | nil =>
      have := interleaving_cons_nil ih
      simpa using this
    | cons x l ihl =>
      refine .take ((x :: l) :: ls) 0 (by simp) x l (l ++ ls.flatten) rfl ?_
      simpa using ihl

theorem perm_flatten_of_perm {α : Type} {l1 l2 : List (List α)}
    (h : l1.Perm l2) : l1.flatten.Perm l2.flatten := by
  induction h with
  | nil => exact .refl _
  | cons x h ih => simpa using ih.append_left x
  | swap x y l =>
    simp only [List.flatten_cons]
    rw [← List.append_assoc, ← List.append_assoc]
    exact (List.perm_append_comm).append_right _
  | trans h1 h2 ih1 ih2 => exact ih1.trans ih2

/-- `strings.Contains(s, "syntax error")`: structural substring
search. -/
def listContains (s pat : List Char) : Bool :=
  match s with
  | [] => pat.isEmpty
  | _ :: rest => List.isPrefixOf pat s || listContains rest pat

/-- Whether a loader error message mentions a syntax error
(`strings.Contains(err.Error(), "syntax error")`). -/
def containsSyntaxError (s : String) : Bool :=
  listContains s.data "syntax error".data

/-- What the `ValidateProject` goroutine for one loaded package
observes: the loader's package errors, and the diagnostics its AST
walks produce in program order (blank imports, empty function bodies,
unused imports/variables, type errors — each as message/name with line
and column). -/
structure ProjPackage where
  pkgPath : String
  pkgErrors : List String
  blankImports : List (String × Nat × Nat)
  emptyFuncs : List (String × Nat × Nat)
  unusedImports : List (String × Nat × Nat)
  unusedVars : List (String × Nat × Nat)
  typeErrors : List (String × Nat × Nat)
  deriving Repr, DecidableEq

/-- The sequence of `result.Errors` entries the goroutine for one
package appends (validator.go `ValidateProject`): loader errors make
it append them all as `PKG_ERROR` and return early; otherwise only the
strict level appends `TYPE_ERROR`s and the (vacuous, since the early
return guarantees `pkg.Errors` is empty here) syntax-error scan. -/
def pkgErrContrib (level : String) (p : ProjPackage) : List ValidationError :=
  if p.pkgErrors.isEmpty then
    if level = "strict" then
      p.typeErrors.map (fun e =>
        (⟨"error", "TYPE_ERROR", e.1, p.pkgPath, e.2.1, e.2.2, []⟩ : ValidationError)) ++
      (p.pkgErrors.filter containsSyntaxError).map (fun m =>
        (⟨"error", "SYNTAX_ERROR", m, p.pkgPath, 0, 0, []⟩ : ValidationError))
    else []
  else
    p.pkgErrors.map (fun m =>
      (⟨"error", "PKG_ERROR", m, p.pkgPath, 0, 0, []⟩ : ValidationError))

/-- The sequence of `result.Warnings` entries the goroutine for one
package appends, in its program order: standard-level blank-import and
empty-function findings, then the strict-level unused-import and
unused-variable findings; a package with loader errors returns early
and appends none. -/
def pkgWarnContrib (level : String) (p : ProjPackage) : List ValidationError :=
  if p.pkgErrors.isEmpty then
    (if strLevelGe level "standard" then
      p.blankImports.map (fun b =>
        (⟨"warning", "BLANK_IMPORT", "blank import: " ++ b.1, p.pkgPath,
          b.2.1, b.2.2, []⟩ : ValidationError)) ++
      p.emptyFuncs.map (fun f =>
        (⟨"warning", "EMPTY_FUNC", "empty function: " ++ f.1, p.pkgPath,
          f.2.1, f.2.2, []⟩ : ValidationError))
    else []) ++
    (if level = "strict" then
      p.unusedImports.map (fun u =>
        (⟨"warning", "UNUSED_IMPORT", "unused import: " ++ u.1, p.pkgPath,
          u.2.1, u.2.2, []⟩ : ValidationError)) ++
      p.unusedVars.map (fun v =>
        (⟨"warning", "UNUSED_VAR", "unused variable: " ++ v.1, p.pkgPath,
          v.2.1, v.2.2, []⟩ : ValidationError))
    else [])
  else []

/-- C8: after `wg.Wait()`, `ValidateProject` sets
`Stats.ErrorCount = len(result.Errors)` and
`Stats.WarningCount = len(result.Warnings)`.  Whatever order the
mutex grants the goroutines (any interleaving of the per-package
append sequences), those totals equal the counts of a sequential
validation of the same packages in any order: no update is lost. -/
theorem validateProject_counts_schedule_independent (level : String)
    (pkgs seqOrder : List ProjPackage) (E W : List ValidationError)
    (hE : Interleaving (pkgs.map (pkgErrContrib level)) E)
    (hW : Interleaving (pkgs.map (pkgWarnContrib level)) W)
    (hperm : pkgs.Perm seqOrder) :
    E.length = ((seqOrder.map (pkgErrContrib level)).flatten).length ∧
    W.length = ((seqOrder.map (pkgWarnContrib level)).flatten).length :=
  ⟨hE.perm_flatten.length_eq.trans
      (perm_flatten_of_perm (hperm.map (pkgErrContrib level))).length_eq,
    hW.perm_flatten.length_eq.trans
      (perm_flatten_of_perm (hperm.map (pkgWarnContrib level))).length_eq⟩

/-- A broken package and a clean package for the concurrency
witnesses. -/
def brokenPkg : ProjPackage :=
  ⟨"m/a", ["undefined: foo"], [], [], [], [], []⟩

/-- A clean package with one blank import. -/
def cleanPkg : ProjPackage :=
  ⟨"m/b", [], [("\"net/http/pprof\"", 3, 1)], [], [], [], []⟩

theorem validateProject_counts_witness :
    (([brokenPkg, cleanPkg].map (pkgErrContrib "standard")).flatten).length =
      (([cleanPkg, brokenPkg].map (pkgErrContrib "standard")).flatten).length ∧
    (([brokenPkg, cleanPkg].map (pkgWarnContrib "standard")).flatten).length =
      (([cleanPkg, brokenPkg].map (pkgWarnContrib "standard")).flatten).length :=
  validateProject_counts_schedule_independent "standard"
    [brokenPkg, cleanPkg] [cleanPkg, brokenPkg] _ _
    (interleaving_flatten _) (interleaving_flatten _)
    (List.Perm.swap cleanPkg brokenPkg [])

/-- Shallow embedding of `FunctionInfo` (readgo2 `types.go`). -/
structure FunctionInfo where
  name : String
  pkg : String
  params : List String
  results : List String
  receiver : String
  deriving Repr, DecidableEq

/-- The per-goroutine `result.Types` contributions of readgo2
`AnalyzePackage` (analyzer.go): one goroutine per scope name, each
appending the `TypeInfo` derived from that name's scope object when it
is a type name (and nothing otherwise). -/
def typeContribs (names : List String) (typeOf : String → Option TypeInfo) :
    List (List TypeInfo) :=
  names.map (fun n => (typeOf n).toList)

/-- C7, counterexample: with two type names in scope, one run of
`AnalyzePackage`'s concurrent type collection can append `Alpha` before
`Beta` and another run `Beta` before `Alpha` — both are interleavings
the mutex admits for the same unchanged package — so the `Types` lists
of two calls need not be equal element for element in the same
order. -/
theorem analyzePackage_order_counterexample :
    Interleaving
      (typeContribs ["Alpha", "Beta"]
        (fun n => if n = "Alpha" then some ⟨"Alpha", "demo", "struct", []⟩
          else if n = "Beta" then some ⟨"Beta", "demo", "interface", []⟩ else none))
      [⟨"Alpha", "demo", "struct", []⟩, ⟨"Beta", "demo", "interface", []⟩] ∧
    Interleaving
      (typeContribs ["Alpha", "Beta"]
        (fun n => if n = "Alpha" then some ⟨"Alpha", "demo", "struct", []⟩
          else if n = "Beta" then some ⟨"Beta", "demo", "interface", []⟩ else none))
      [⟨"Beta", "demo", "interface", []⟩, ⟨"Alpha", "demo", "struct", []⟩] ∧
    ([⟨"Alpha", "demo", "struct", []⟩, ⟨"Beta", "demo", "interface", []⟩] :
        List TypeInfo) ≠
      [⟨"Beta", "demo", "interface", []⟩, ⟨"Alpha", "demo", "struct", []⟩] := by
  refine ⟨?_, ?_, by decide⟩
  · have h := interleaving_flatten
      [[(⟨"Alpha", "demo", "struct", []⟩ : TypeInfo)], [⟨"Beta", "demo", "interface", []⟩]]
    simpa [typeContribs] using h
  · show Interleaving
      [[(⟨"Alpha", "demo", "struct", []⟩ : TypeInfo)], [⟨"Beta", "demo", "interface", []⟩]] _
    refine .take
      [[(⟨"Alpha", "demo", "struct", []⟩ : TypeInfo)], [⟨"Beta", "demo", "interface", []⟩]]
      1 (by simp) ⟨"Beta", "demo", "interface", []⟩ []
      [⟨"Alpha", "demo", "struct", []⟩] rfl ?_
    refine .take
      [[(⟨"Alpha", "demo", "struct", []⟩ : TypeInfo)], []]
      0 (by simp) ⟨"Alpha", "demo", "struct", []⟩ [] [] rfl ?_
    exact .nil _ (by simp)

/-- C7, amended: for a fixed package with unchanged source, the `Types`
and `Functions` lists produced by two runs of `AnalyzePackage`'s
concurrent collection are equal as multisets — each is a permutation
of the other — but their order is schedule-dependent, not
deterministic. -/
theorem analyzePackage_results_perm (names : List String)
    (typeOf : String → Option TypeInfo) (files : List (List FunctionInfo))
    (t1 t2 : List TypeInfo) (f1 f2 : List FunctionInfo)
    (ht1 : Interleaving (typeContribs names typeOf) t1)
    (ht2 : Interleaving (typeContribs names typeOf) t2)
    (hf1 : Interleaving files f1) (hf2 : Interleaving files f2) :
    t1.Perm t2 ∧ f1.Perm f2 :=
  ⟨ht1.perm_flatten.trans ht2.perm_flatten.symm,
    hf1.perm_flatten.trans hf2.perm_flatten.symm⟩

theorem analyzePackage_results_perm_witness :
    (((typeContribs ["Alpha"] (fun _ => some ⟨"Alpha", "demo", "struct", []⟩)).flatten :
        List TypeInfo).Perm
      (typeContribs ["Alpha"] (fun _ => some ⟨"Alpha", "demo", "struct", []⟩)).flatten) ∧
    (([[(⟨"F", "demo", [], [], ""⟩ : FunctionInfo)]].flatten : List FunctionInfo).Perm
      [[(⟨"F", "demo", [], [], ""⟩ : FunctionInfo)]].flatten) :=
  analyzePackage_results_perm ["Alpha"] (fun _ => some ⟨"Alpha", "demo", "struct", []⟩)
    [[⟨"F", "demo", [], [], ""⟩]] _ _ _ _
    (interleaving_flatten _) (interleaving_flatten _)
    (interleaving_flatten _) (interleaving_flatten _)

/-- Split a character list on `/` (the segments of a slash path). -/
def splitSlash : List Char → List (List Char)
  | [] => [[]]
  | c :: rest =>
    if c = '/' then [] :: splitSlash rest
    else
      match splitSlash rest with
      | [] => [[c]]
      | g :: gs => (c :: g) :: gs

/-- Join path elements with `/`. -/
def joinSlash : List String → String
  | [] => ""
  | [x] => x
  | x :: rest => x ++ "/" ++ joinSlash rest

/-- One step of `filepath.Clean`'s element processing, on the reversed
stack of output elements: `..` pops a poppable element, is dropped at
the root, and is kept when nothing can be popped in a relative path;
other elements are pushed. -/
def cleanStep (rooted : Bool) (stack : List String) (el : String) : List String :=
  if el = ".." then
    match stack with
    | [] => if rooted then [] else [".."]
    | top :: rest => if top = ".." then ".." :: top :: rest else rest
  else el :: stack

/-- `filepath.Clean` for slash-separated paths: drop empty and `.`
elements, resolve `..` lexically, restore rootedness, and return `.`
for an empty relative result. -/
def cleanPath (path : String) : String :=
  if path = "" then "."
  else
    let rooted := strStartsWith path "/"
    let elems := ((splitSlash path.data).map (fun l => (⟨l⟩ : String))).filter
      (fun e => decide (e ≠ "" ∧ e ≠ "."))
    let out := (elems.foldl (cleanStep rooted) []).reverse
    if rooted then "/" ++ joinSlash out
    else if out.isEmpty then "." else joinSlash out

/-- `filepath.IsAbs` for slash paths. -/
def isAbs (p : String) : Bool := strStartsWith p "/"

/-- `filepath.Join` of two elements: empty elements are dropped, the
rest joined with `/` and cleaned; all-empty input yields `""`. -/
def joinPath (a b : String) : String :=
  if a = "" then (if b = "" then "" else cleanPath b)
  else if b = "" then cleanPath a
  else cleanPath (a ++ "/" ++ b)

/-- `filepath.Abs` relative to the working directory of the process
(`cwd`): absolute paths are cleaned, relative ones joined onto
`cwd`. -/
def absPathOf (cwd p : String) : String :=
  if isAbs p then cleanPath p else joinPath cwd p

/-- Embedding of `DefaultReader.validatePath` (cache.go): reject the
empty path, join a relative path onto the reader's `workDir`, clean
it, and accept exactly when the working directory's absolute path is a
plain string prefix of the result. -/
def validatePath (workDir cwd path : String) : Except String Unit :=
  if path = "" then .error "empty path"
  else
    let absP := cleanPath (if isAbs path then path else joinPath workDir path)
    let workDirAbs := absPathOf cwd workDir
    if strStartsWith absP workDirAbs then .ok ()
    else .error "path is outside of working directory"

/-- `maxFileSize` (readgo constants): 10MB. -/
def maxFileSize : Nat := 10 * 1024 * 1024

/-- ASCII lower-casing (`strings.ToLower` on extension strings). -/
def asciiToLower (c : Char) : Char :=
  if 'A' ≤ c ∧ c ≤ 'Z' then Char.ofNat (c.toNat + 32) else c

/-- The suffix of a character list starting at its last `.`, if any. -/
def lastDotSuffix : List Char → Option (List Char)
  | [] => none
  | c :: rest =>
    match lastDotSuffix rest with
    | some s => some s
    | none => if c = '.' then some (c :: rest) else none

/-- `filepath.Ext`: the suffix beginning at the final dot in the final
slash-separated element of the path; empty if there is none. -/
def extOf (p : String) : String :=
  match lastDotSuffix ((splitSlash p.data).getLastD []) with
  | some s => ⟨s⟩
  | none => ""

/-- `isAllowedExtension` (readgo constants): only `.go`, `.mod` and
`.sum` files may be read. -/
def isAllowedExtension (ext : String) : Bool :=
  ext = ".go" || ext = ".mod" || ext = ".sum"

/-- What `os.Stat` reports for a path: whether the file is a regular
file, its size, and its content. -/
structure FileMeta where
  regular : Bool
  size : Nat
  content : String
  deriving Repr, DecidableEq

/-- Embedding of `DefaultReader.safeReadFile` (cache.go): the path
guard, then stat, regular-file, size and extension checks, then the
read. -/
def safeReadFile (fs : String → Option FileMeta) (workDir cwd path : String) :
    Except String String :=
  match validatePath workDir cwd path with
  | .error e => .error ("invalid path: " ++ e)
  | .ok _ =>
    let absP := cleanPath (if isAbs path then path else joinPath workDir path)
    match fs absP with
    | none => .error "stat error"
    | some info =>
      if info.regular = false then .error ("not a regular file: " ++ path)
      else if maxFileSize < info.size then .error ("file too large: " ++ path)
      else if isAllowedExtension (⟨(extOf path).data.map asciiToLower⟩ : String) = false then
        .error ("unsupported file type: " ++ extOf path)
      else .ok info.content

/-- Whitespace trimming of one line (`strings.TrimSpace`, ASCII). -/
def trimSpaceChars (l : List Char) : List Char :=
  ((l.dropWhile (fun c => decide (c = ' ' ∨ c = '\t' ∨ c = '\r'))).reverse.dropWhile
    (fun c => decide (c = ' ' ∨ c = '\t' ∨ c = '\r'))).reverse

/-- Split a character list on newlines. -/
def splitNl : List Char → List (List Char)
  | [] => [[]]
  | c :: rest =>
    if c = '\n' then [] :: splitNl rest
    else
      match splitNl rest with
      | [] => [[c]]
      | g :: gs => (c :: g) :: gs

/-- Join lines with newlines (`strings.Join(lines, "\n")`). -/
def joinNl : List String → String
  | [] => ""
  | [x] => x
  | x :: rest => x ++ "\n" ++ joinNl rest

/-- Embedding of `DefaultReader.ReadSourceFile` (cache.go): a guarded
read, then the `StripSpaces` post-processing. -/
def ReadSourceFile (fs : String → Option FileMeta) (workDir cwd path : String)
    (stripSpaces : Bool) : Except String String :=
  match safeReadFile fs workDir cwd path with
  | .error e => .error e
  | .ok content =>
    if stripSpaces then
      .ok (joinNl ((splitNl content.data).map (fun l => (⟨trimSpaceChars l⟩ : String))))
    else .ok content

/-- C10, counterexample: the path guard does not accept *exactly* the
paths whose cleaned absolute form lies under the working directory —
the empty path's cleaned absolute form is the working directory itself
(a string-prefix match), yet the guard rejects it first. -/
theorem validatePath_empty_counterexample :
    validatePath "/work" "/" "" = .error "empty path" ∧
    strStartsWith (cleanPath (joinPath "/work" "")) (absPathOf "/" "/work") = true :=
  ⟨rfl, rfl⟩

/-- C10, amended: for every non-empty path the guard accepts exactly
when the working directory's absolute path is a plain string prefix of
the path's cleaned absolute form; being a string comparison and not a
path-component one, a sibling directory merely extending the working
directory's name (`/work-other` under `/work`) is accepted too; and
`safeReadFile`/`ReadSourceFile` return an error for every path the
guard rejects. -/
theorem validatePath_guard_characterization :
    (∀ (wd cwd p : String), p ≠ "" →
      (validatePath wd cwd p = .ok () ↔
        strStartsWith (cleanPath (if isAbs p then p else joinPath wd p))
          (absPathOf cwd wd) = true)) ∧
    validatePath "/work" "/" "/work-other/f.go" = .ok () ∧
    (∀ (fs : String → Option FileMeta) (wd cwd p e : String) (strip : Bool),
      validatePath wd cwd p = .error e →
      safeReadFile fs wd cwd p = .error ("invalid path: " ++ e) ∧
      ReadSourceFile fs wd cwd p strip = .error ("invalid path: " ++ e)) := by
  refine ⟨?_, rfl, ?_⟩
  · intro wd cwd p hp
    by_cases hpre : strStartsWith (cleanPath (if isAbs p then p else joinPath wd p))
        (absPathOf cwd wd) = true
    · simp [validatePath, hp, hpre]
    · simp [validatePath, hp, hpre]
  · intro fs wd cwd p e strip h
    have hs : safeReadFile fs wd cwd p = .error ("invalid path: " ++ e) := by
      simp [safeReadFile, h]
    exact ⟨hs, by simp [ReadSourceFile, hs]⟩

theorem validatePath_guard_characterization_witness :
    (validatePath "/work" "/" "sub/f.go" = .ok () ↔
      strStartsWith (cleanPath (if isAbs "sub/f.go" then "sub/f.go"
        else joinPath "/work" "sub/f.go")) (absPathOf "/" "/work") = true) ∧
    safeReadFile (fun _ => none) "/work" "/" "../etc/passwd" =
      .error ("invalid path: " ++ "path is outside of working directory") ∧
    ReadSourceFile (fun _ => none) "/work" "/" "../etc/passwd" false =
      .error ("invalid path: " ++ "path is outside of working directory") :=
  ⟨validatePath_guard_characterization.1 "/work" "/" "sub/f.go" (by decide),
    (validatePath_guard_characterization.2.2 (fun _ => none) "/work" "/" "../etc/passwd"
      "path is outside of working directory" false rfl).1,
    (validatePath_guard_characterization.2.2 (fun _ => none) "/work" "/" "../etc/passwd"
      "path is outside of working directory" false rfl).2⟩
